import Mathlib

/-!
Verification of the local analytic subsystem of the code-review backend
(src/index.ts): the lexical metrics analyzer `analyzeCodeComplexity`
(lines 779-835), the recommendation rule table (lines 837-861), the
evolution store endpoints `/evolution/record`, `/evolution/timeline`,
`/evolution/hotspots` (lines 863-911) and the persistence layer
`saveEvolutionData` (lines 265-267).

Modelling conventions: JavaScript numbers are modelled as exact rationals
(`Rat`), with `Math.round` modelled by `jsRound` (round half toward plus
infinity) and `Math.max` by `max`; JavaScript strings are modelled as
`String`/`List Char`; the regular-expression matchers of the analyzer are
modelled by explicit scanning functions that reproduce the global-match
semantics of `String.prototype.match` for the exact patterns used in the
source (each pattern is a sequence of literals and character classes in
which adjacent greedy classes are disjoint, so greedy matching without
backtracking is exact).  JSON request bodies and query strings are modelled
by structures with `Option` fields, where `none` stands for an absent field
and JavaScript truthiness tests are spelled out per type.
-/

namespace CodeReview

/-- Character class of the JavaScript regex escape backslash-s and of
`String.prototype.trim` (ASCII whitespace plus the Unicode space
characters listed in the ECMAScript standard). -/
def jsSpace (c : Char) : Bool :=
  c = ' ' || c = '\t' || c = '\n' || c.val = 11 || c.val = 12 || c = '\r' ||
  c.val = 0xA0 || c.val = 0x1680 || (0x2000 ≤ c.val && c.val ≤ 0x200A) ||
  c.val = 0x2028 || c.val = 0x2029 || c.val = 0x202F || c.val = 0x205F ||
  c.val = 0x3000 || c.val = 0xFEFF

/-- Character class of the JavaScript regex escape backslash-w:
ASCII letters, digits and underscore. -/
def jsWordChar (c : Char) : Bool :=
  ('a' ≤ c && c ≤ 'z') || ('A' ≤ c && c ≤ 'Z') || ('0' ≤ c && c ≤ '9') || c = '_'

/-- Does `pat` occur as a prefix of the second argument (both as char lists)? -/
def startsWithL : List Char → List Char → Bool
  | [], _ => true
  | _ :: _, [] => false
  | p :: ps, c :: cs => p = c && startsWithL ps cs

/-- Substring presence test, modelling `String.prototype.includes`. -/
def containsSub (pat : List Char) : List Char → Bool
  | [] => startsWithL pat []
  | c :: rest => startsWithL pat (c :: rest) || containsSub pat rest

/-- Number of positions at which `pat` occurs (used to state claims about
inputs containing an exact number of occurrences of a sink). -/
def countOcc (pat : List Char) : List Char → Nat
  | [] => if startsWithL pat [] then 1 else 0
  | c :: rest => (if startsWithL pat (c :: rest) then 1 else 0) + countOcc pat rest

/-- Left trim by the JavaScript whitespace class.  The source only uses
`line.trim()` through `.length > 0` and `.startsWith(p)` for patterns made
of non-space characters, for which trimming on the left alone is
equivalent to trimming on both sides. -/
def trimL (l : List Char) : List Char := l.dropWhile jsSpace

/-- Split on newline characters, modelling `code.split('\n')`: the result
always has one more piece than the number of newlines, so it is never
empty (the empty string yields one empty piece). -/
def splitLines : List Char → List (List Char)
  | [] => [[]]
  | c :: rest =>
    if c = '\n' then [] :: splitLines rest
    else
      match splitLines rest with
      | [] => [[c]]
      | l :: ls => (c :: l) :: ls

/-- Match a literal character sequence at the head of the input,
returning the remainder. -/
def litM : List Char → List Char → Option (List Char)
  | [], s => some s
  | _ :: _, [] => none
  | p :: ps, c :: cs => if p = c then litM ps cs else none

/-- Greedy match of zero or more characters of a class (regex star). -/
def starC (f : Char → Bool) (s : List Char) : List Char := s.dropWhile f

/-- Greedy match of one or more characters of a class (regex plus). -/
def plusC (f : Char → Bool) : List Char → Option (List Char)
  | [] => none
  | c :: rest => if f c then some (rest.dropWhile f) else none

/-- Alternative 1 of the function-count regex: `function` backslash-s+ backslash-w+. -/
def patFunctionDecl (s : List Char) : Option (List Char) :=
  (litM "function".toList s).bind fun r =>
    (plusC jsSpace r).bind fun r => plusC jsWordChar r

/-- Alternative 2 of the function-count regex:
`const` backslash-s+ backslash-w+ backslash-s* `=` backslash-s* `(`. -/
def patConstArrowFn (s : List Char) : Option (List Char) :=
  (litM "const".toList s).bind fun r =>
    (plusC jsSpace r).bind fun r =>
      (plusC jsWordChar r).bind fun r =>
        (litM ['='] (starC jsSpace r)).bind fun r =>
          litM ['('] (starC jsSpace r)

/-- Alternative 3 of the function-count regex: `=>` backslash-s* left brace. -/
def patArrowBlock (s : List Char) : Option (List Char) :=
  (litM "=>".toList s).bind fun r => litM ['\x7b'] (starC jsSpace r)

/-- Alternative 4 of the function-count regex: `class` backslash-s+ backslash-w+. -/
def patClassDecl (s : List Char) : Option (List Char) :=
  (litM "class".toList s).bind fun r =>
    (plusC jsSpace r).bind fun r => plusC jsWordChar r

/-- The full function-count regex, alternatives tried left to right as in
JavaScript alternation. -/
def patFunctionAny (s : List Char) : Option (List Char) :=
  patFunctionDecl s <|> patConstArrowFn s <|> patArrowBlock s <|> patClassDecl s

/-- Keyword followed by backslash-s* and an opening parenthesis, the shape of
the `if`/`for`/`while`/`switch`/`catch` counting regexes. -/
def patKeywordParen (kw : List Char) (s : List Char) : Option (List Char) :=
  (litM kw s).bind fun r => litM ['('] (starC jsSpace r)

def patIf (s : List Char) : Option (List Char) := patKeywordParen "if".toList s

def patFor (s : List Char) : Option (List Char) := patKeywordParen "for".toList s

def patWhile (s : List Char) : Option (List Char) := patKeywordParen "while".toList s

def patSwitch (s : List Char) : Option (List Char) := patKeywordParen "switch".toList s

/-- First alternative of the try-catch regex: `try` backslash-s* left brace. -/
def patTryBrace (s : List Char) : Option (List Char) :=
  (litM "try".toList s).bind fun r => litM ['\x7b'] (starC jsSpace r)

def patCatchParen (s : List Char) : Option (List Char) := patKeywordParen "catch".toList s

def patTryCatch (s : List Char) : Option (List Char) := patTryBrace s <|> patCatchParen s

/-- Count the non-overlapping global matches of a pattern, modelling
`(code.match(re) || []).length` for a global regex: scan left to right,
and after a match resume right after it (resume one character later on an
empty match, as the JavaScript global-match loop does).  The fuel argument
is the length of the scanned input; every step consumes at least one
character of the input, so this fuel is always sufficient and the
function is exact. -/
def countMatchesAux (p : List Char → Option (List Char)) : Nat → List Char → Nat
  | 0, _ => 0
  | _, [] => 0
  | fuel + 1, c :: rest =>
    match p (c :: rest) with
    | some r => if r.length ≤ rest.length then 1 + countMatchesAux p fuel r
                else 1 + countMatchesAux p fuel rest
    | none => countMatchesAux p fuel rest

def countMatches (p : List Char → Option (List Char)) (s : List Char) : Nat :=
  countMatchesAux p s.length s

/-- The metrics record returned by the analyzer (source lines 812-821). -/
structure Metrics where
  totalLines : Nat
  nonEmptyLines : Nat
  commentLines : Nat
  functionCount : Nat
  complexityScore : Nat
  maintainabilityIndex : Int
  performanceScore : Int
  codeToCommentRatio : Int
deriving DecidableEq

/-- The complexity breakdown returned by the analyzer (source lines 822-828). -/
structure ComplexityBreakdown where
  ifStatements : Nat
  forLoops : Nat
  whileLoops : Nat
  switchStatements : Nat
  tryCatchBlocks : Nat
deriving DecidableEq

/-- The security profile returned by the analyzer (source lines 829-832). -/
structure SecurityProfile where
  issues : List String
  score : Int
deriving DecidableEq

/-- The full result of `analyzeCodeComplexity`. -/
structure AnalysisResult where
  metrics : Metrics
  complexity : ComplexityBreakdown
  security : SecurityProfile
  recommendations : List String
deriving DecidableEq

/-- JavaScript `Math.round` on an exact rational: round half toward plus
infinity. -/
def jsRound (x : ℚ) : ℤ := ⌊x + 1/2⌋

/-- Clamp an integer to the interval from `lo` to `hi`. -/
def clampI (lo hi x : ℤ) : ℤ := max lo (min hi x)

/-- The fixed sink catalog of the security scan (source lines 806-809). -/
def evalSink : List Char := "eval(".toList

def innerHTMLSink : List Char := "innerHTML".toList

def documentWriteSink : List Char := "document.write".toList

/-- The recommendation rule table, `generateRecommendations`
(source lines 837-861).  The source passes the unrounded (but already
`Math.max`-floored) maintainability and performance values to it. -/
def generateRecommendations (complexityScore : Nat)
    (maintainabilityIndex performanceScore : ℚ)
    (securityIssues : List String) : List String :=
  let recommendations :=
    (if 20 < complexityScore then
      ["Consider breaking down complex functions into smaller, more manageable pieces"] else []) ++
    (if maintainabilityIndex < 50 then
      ["Code maintainability is low. Consider refactoring and adding more comments"] else []) ++
    (if performanceScore < 70 then
      ["Performance could be improved. Consider optimizing loops and reducing nested conditions"] else []) ++
    (if 0 < securityIssues.length then
      ["Security issues detected. Review and fix security vulnerabilities"] else [])
  if recommendations.isEmpty then
    ["Code quality looks good! Keep up the good practices"]
  else recommendations

/-- The lexical metrics analyzer, `analyzeCodeComplexity`
(source lines 779-835), translated let for let. -/
def analyzeCodeComplexity (code : String) : AnalysisResult :=
  let chars := code.toList
  let lines := splitLines chars
  let totalLines := lines.length
  let nonEmptyLines := (lines.filter (fun line => 0 < (trimL line).length)).length
  let commentLines := (lines.filter (fun line =>
    startsWithL "//".toList (trimL line) || startsWithL "/*".toList (trimL line) ||
    startsWithL "*".toList (trimL line))).length
  let functionCount := countMatches patFunctionAny chars
  let ifStatements := countMatches patIf chars
  let forLoops := countMatches patFor chars
  let whileLoops := countMatches patWhile chars
  let switchStatements := countMatches patSwitch chars
  let tryCatchBlocks := countMatches patTryCatch chars
  let complexityScore :=
    ifStatements + forLoops * 2 + whileLoops * 2 + switchStatements * 3 + tryCatchBlocks * 2
  let maintainabilityIndex : ℚ :=
    max 0 (100 - (complexityScore : ℚ) * 2 - (functionCount : ℚ) * 1.5 - (totalLines : ℚ) * 0.1)
  let performanceScore : ℚ :=
    max 0 (100 - (forLoops : ℚ) * 5 - (whileLoops : ℚ) * 5 - (ifStatements : ℚ) * 2)
  let securityIssues : List String :=
    (if containsSub evalSink chars then ["eval() usage detected"] else []) ++
    (if containsSub innerHTMLSink chars then ["innerHTML usage detected"] else []) ++
    (if containsSub documentWriteSink chars then ["document.write usage detected"] else [])
  { metrics :=
    { totalLines := totalLines
      nonEmptyLines := nonEmptyLines
      commentLines := commentLines
      functionCount := functionCount
      complexityScore := complexityScore
      maintainabilityIndex := jsRound maintainabilityIndex
      performanceScore := jsRound performanceScore
      codeToCommentRatio :=
        if 0 < nonEmptyLines then jsRound (((commentLines : ℚ) / (nonEmptyLines : ℚ)) * 100)
        else 0 }
    complexity :=
    { ifStatements := ifStatements
      forLoops := forLoops
      whileLoops := whileLoops
      switchStatements := switchStatements
      tryCatchBlocks := tryCatchBlocks }
    security :=
    { issues := securityIssues
      score := max 0 (100 - (securityIssues.length : ℤ) * 20) }
    recommendations :=
      generateRecommendations complexityScore maintainabilityIndex performanceScore securityIssues }

/-! Projection equations for `analyzeCodeComplexity`, all definitional. -/

theorem analyze_totalLines (code : String) :
    (analyzeCodeComplexity code).metrics.totalLines = (splitLines code.toList).length := rfl

theorem analyze_maintainability_eq (code : String) :
    (analyzeCodeComplexity code).metrics.maintainabilityIndex =
      jsRound (max 0 (100 - ((analyzeCodeComplexity code).metrics.complexityScore : ℚ) * 2
        - ((analyzeCodeComplexity code).metrics.functionCount : ℚ) * 1.5
        - ((analyzeCodeComplexity code).metrics.totalLines : ℚ) * 0.1)) := rfl

theorem analyze_performance_eq (code : String) :
    (analyzeCodeComplexity code).metrics.performanceScore =
      jsRound (max 0 (100 - ((analyzeCodeComplexity code).complexity.forLoops : ℚ) * 5
        - ((analyzeCodeComplexity code).complexity.whileLoops : ℚ) * 5
        - ((analyzeCodeComplexity code).complexity.ifStatements : ℚ) * 2)) := rfl

theorem analyze_security_issues_eq (code : String) :
    (analyzeCodeComplexity code).security.issues =
      (if containsSub evalSink code.toList then ["eval() usage detected"] else []) ++
      (if containsSub innerHTMLSink code.toList then ["innerHTML usage detected"] else []) ++
      (if containsSub documentWriteSink code.toList then ["document.write usage detected"] else []) := rfl

theorem analyze_security_score_eq (code : String) :
    (analyzeCodeComplexity code).security.score =
      max 0 (100 - ((analyzeCodeComplexity code).security.issues.length : ℤ) * 20) := rfl

/-! Arithmetic facts about `jsRound`. -/

theorem jsRound_nonneg {x : ℚ} (h : 0 ≤ x) : 0 ≤ jsRound x := by
  rw [jsRound]
  exact Int.le_floor.mpr (by push_cast; linarith)

theorem jsRound_le_hundred {x : ℚ} (h : x ≤ 100) : jsRound x ≤ 100 := by
  have hlt : jsRound x < 101 := by
    rw [jsRound]
    exact Int.floor_lt.mpr (by push_cast; linarith)
  omega

theorem jsRound_nonpos {x : ℚ} (h : x < 0) : jsRound x ≤ 0 := by
  have hlt : jsRound x < 1 := by
    rw [jsRound]
    exact Int.floor_lt.mpr (by push_cast; linarith)
  omega

theorem jsRound_zero : jsRound 0 = 0 := by
  rw [jsRound]
  norm_num

/-- Rounding the result of the `Math.max(0, v)` floor used in the source is
the same as rounding first and clamping to the interval from 0 to 100,
whenever the raw value cannot exceed 100. -/
theorem jsRound_max_eq_clamp {v : ℚ} (h : v ≤ 100) :
    jsRound (max 0 v) = clampI 0 100 (jsRound v) := by
  rcases le_or_lt 0 v with h0 | h0
  · rw [max_eq_right h0, clampI, min_eq_right (jsRound_le_hundred h),
      max_eq_right (jsRound_nonneg h0)]
  · have h1 : jsRound v ≤ 0 := jsRound_nonpos h0
    rw [max_eq_left h0.le, clampI, min_eq_right (by omega), max_eq_left h1, jsRound_zero]

theorem splitLines_length_pos (s : List Char) : 0 < (splitLines s).length := by
  induction s with
  | nil => simp [splitLines]
  | cons c rest ih =>
    rw [splitLines]
    split
    · simp
    · split <;> simp

/-- Claim C1: for every input string, the maintainability index, the
performance score and the security score computed by the analyzer are
integers in the interval from 0 to 100, for any input whatsoever. -/
theorem scores_within_range (code : String) :
    (0 ≤ (analyzeCodeComplexity code).metrics.maintainabilityIndex ∧
      (analyzeCodeComplexity code).metrics.maintainabilityIndex ≤ 100) ∧
    (0 ≤ (analyzeCodeComplexity code).metrics.performanceScore ∧
      (analyzeCodeComplexity code).metrics.performanceScore ≤ 100) ∧
    (0 ≤ (analyzeCodeComplexity code).security.score ∧
      (analyzeCodeComplexity code).security.score ≤ 100) := by
  refine ⟨?_, ?_, ?_⟩
  · rw [analyze_maintainability_eq]
    have hc : (0:ℚ) ≤ ((analyzeCodeComplexity code).metrics.complexityScore : ℚ) :=
      Nat.cast_nonneg _
    have hf : (0:ℚ) ≤ ((analyzeCodeComplexity code).metrics.functionCount : ℚ) :=
      Nat.cast_nonneg _
    have ht : (0:ℚ) ≤ ((analyzeCodeComplexity code).metrics.totalLines : ℚ) :=
      Nat.cast_nonneg _
    constructor
    · exact jsRound_nonneg (le_max_left _ _)
    · exact jsRound_le_hundred (max_le (by norm_num) (by nlinarith))
  · rw [analyze_performance_eq]
    have hF : (0:ℚ) ≤ ((analyzeCodeComplexity code).complexity.forLoops : ℚ) :=
      Nat.cast_nonneg _
    have hW : (0:ℚ) ≤ ((analyzeCodeComplexity code).complexity.whileLoops : ℚ) :=
      Nat.cast_nonneg _
    have hI : (0:ℚ) ≤ ((analyzeCodeComplexity code).complexity.ifStatements : ℚ) :=
      Nat.cast_nonneg _
    constructor
    · exact jsRound_nonneg (le_max_left _ _)
    · exact jsRound_le_hundred (max_le (by norm_num) (by nlinarith))
  · rw [analyze_security_score_eq]
    have hL : (0:ℤ) ≤ ((analyzeCodeComplexity code).security.issues.length : ℤ) :=
      Int.ofNat_nonneg _
    constructor
    · exact le_max_left _ _
    · exact max_le (by norm_num) (by nlinarith)

/-- Claim C5: the maintainability index equals
clamp(0, 100, round(100 - 2 complexity - 1.5 functions - 0.1 lines)),
computed from the values the analyzer itself reports. -/
theorem maintainability_clamp_formula (code : String) :
    (analyzeCodeComplexity code).metrics.maintainabilityIndex =
      clampI 0 100 (jsRound (100 - 2 * ((analyzeCodeComplexity code).metrics.complexityScore : ℚ)
        - 1.5 * ((analyzeCodeComplexity code).metrics.functionCount : ℚ)
        - 0.1 * ((analyzeCodeComplexity code).metrics.totalLines : ℚ))) := by
  rw [analyze_maintainability_eq]
  have hc : (0:ℚ) ≤ ((analyzeCodeComplexity code).metrics.complexityScore : ℚ) :=
    Nat.cast_nonneg _
  have hf : (0:ℚ) ≤ ((analyzeCodeComplexity code).metrics.functionCount : ℚ) :=
    Nat.cast_nonneg _
  have ht : (0:ℚ) ≤ ((analyzeCodeComplexity code).metrics.totalLines : ℚ) :=
    Nat.cast_nonneg _
  have hcomm : (100 : ℚ) - 2 * ((analyzeCodeComplexity code).metrics.complexityScore : ℚ)
      - 1.5 * ((analyzeCodeComplexity code).metrics.functionCount : ℚ)
      - 0.1 * ((analyzeCodeComplexity code).metrics.totalLines : ℚ)
    = 100 - ((analyzeCodeComplexity code).metrics.complexityScore : ℚ) * 2
      - ((analyzeCodeComplexity code).metrics.functionCount : ℚ) * 1.5
      - ((analyzeCodeComplexity code).metrics.totalLines : ℚ) * 0.1 := by ring
  rw [hcomm]
  exact jsRound_max_eq_clamp (by nlinarith)

/-- Claim C4: the analyzer applied to the empty string returns one total
line, zero for every count, maintainability index 100, performance score
100, comment ratio 0 and no security issues.  The analyzer is a total Lean
function, so it never fails on any input by construction. -/
theorem analyze_empty_string :
    (analyzeCodeComplexity "").metrics.totalLines = 1 ∧
    (analyzeCodeComplexity "").metrics.nonEmptyLines = 0 ∧
    (analyzeCodeComplexity "").metrics.commentLines = 0 ∧
    (analyzeCodeComplexity "").metrics.functionCount = 0 ∧
    (analyzeCodeComplexity "").metrics.complexityScore = 0 ∧
    (analyzeCodeComplexity "").metrics.maintainabilityIndex = 100 ∧
    (analyzeCodeComplexity "").metrics.performanceScore = 100 ∧
    (analyzeCodeComplexity "").metrics.codeToCommentRatio = 0 ∧
    (analyzeCodeComplexity "").security.issues = [] := by
  refine ⟨by decide, by decide, by decide, by decide, by decide, ?_, ?_, by decide, by decide⟩
  · rw [analyze_maintainability_eq]
    have hc : (analyzeCodeComplexity "").metrics.complexityScore = 0 := by decide
    have hf : (analyzeCodeComplexity "").metrics.functionCount = 0 := by decide
    have ht : (analyzeCodeComplexity "").metrics.totalLines = 1 := by decide
    rw [hc, hf, ht]
    rw [show ((100:ℚ) - (0:ℕ) * 2 - (0:ℕ) * 1.5 - (1:ℕ) * 0.1) = 999/10 by push_cast; norm_num]
    rw [max_eq_right (by norm_num), jsRound]
    norm_num
  · rw [analyze_performance_eq]
    have hF : (analyzeCodeComplexity "").complexity.forLoops = 0 := by decide
    have hW : (analyzeCodeComplexity "").complexity.whileLoops = 0 := by decide
    have hI : (analyzeCodeComplexity "").complexity.ifStatements = 0 := by decide
    rw [hF, hW, hI]
    rw [show ((100:ℚ) - (0:ℕ) * 5 - (0:ℕ) * 5 - (0:ℕ) * 2) = 100 by push_cast; norm_num]
    rw [max_eq_right (by norm_num), jsRound]
    norm_num

theorem containsSub_iff_countOcc (pat s : List Char) :
    containsSub pat s = true ↔ 0 < countOcc pat s := by
  induction s with
  | nil =>
    simp only [containsSub, countOcc]
    split <;> simp_all
  | cons c rest ih =>
    simp only [containsSub, countOcc, Bool.or_eq_true]
    cases h : startsWithL pat (c :: rest) <;> simp [h, ih]

/-- Claim C3: each sink of the fixed catalog that occurs in the input
contributes exactly one issue entry however many times it occurs, the
security score is clamp(0, 100, 100 - 20 times the number of distinct
issues), and an input with exactly one occurrence of the unsafe-eval sink
and nothing else unsafe yields one issue and score 80. -/
theorem security_distinct_sink_counting (code : String) :
    ((analyzeCodeComplexity code).security.issues.length =
      (if containsSub evalSink code.toList then 1 else 0) +
      (if containsSub innerHTMLSink code.toList then 1 else 0) +
      (if containsSub documentWriteSink code.toList then 1 else 0)) ∧
    ((analyzeCodeComplexity code).security.score =
      clampI 0 100 (100 - 20 * ((analyzeCodeComplexity code).security.issues.length : ℤ))) ∧
    (countOcc evalSink code.toList = 1 → containsSub innerHTMLSink code.toList = false →
      containsSub documentWriteSink code.toList = false →
      (analyzeCodeComplexity code).security.issues.length = 1 ∧
      (analyzeCodeComplexity code).security.score = 80) := by
  have hlen : (analyzeCodeComplexity code).security.issues.length =
      (if containsSub evalSink code.toList then 1 else 0) +
      (if containsSub innerHTMLSink code.toList then 1 else 0) +
      (if containsSub documentWriteSink code.toList then 1 else 0) := by
    rw [analyze_security_issues_eq]
    simp only [List.length_append]
    split_ifs <;> simp
  refine ⟨hlen, ?_, ?_⟩
  · rw [analyze_security_score_eq]
    have hL : (0:ℤ) ≤ ((analyzeCodeComplexity code).security.issues.length : ℤ) :=
      Int.ofNat_nonneg _
    rw [clampI, min_eq_right (by linarith)]
    congr 1
    ring
  · intro h1 h2 h3
    have he : containsSub evalSink code.toList = true :=
      (containsSub_iff_countOcc _ _).mpr (by omega)
    have hone : (analyzeCodeComplexity code).security.issues.length = 1 := by
      rw [hlen, he, h2, h3]
      simp
    refine ⟨hone, ?_⟩
    rw [analyze_security_score_eq, hone]
    decide

/-- Claim C9: the security score is always at least 40 and always one of
100, 80, 60, 40, because the sink catalog has exactly three entries. -/
theorem security_score_values (code : String) :
    40 ≤ (analyzeCodeComplexity code).security.score ∧
    ((analyzeCodeComplexity code).security.score = 100 ∨
     (analyzeCodeComplexity code).security.score = 80 ∨
     (analyzeCodeComplexity code).security.score = 60 ∨
     (analyzeCodeComplexity code).security.score = 40) := by
  have hlen : (analyzeCodeComplexity code).security.issues.length ≤ 3 := by
    rw [analyze_security_issues_eq]
    simp only [List.length_append]
    split_ifs <;> simp
  rw [analyze_security_score_eq]
  have h40 : (40:ℤ) ≤ 100 - ((analyzeCodeComplexity code).security.issues.length : ℤ) * 20 := by
    omega
  rw [max_eq_right (by omega)]
  exact ⟨h40, by omega⟩

theorem security_distinct_sink_counting_witness :
    countOcc evalSink "eval(x)".toList = 1 ∧
    containsSub innerHTMLSink "eval(x)".toList = false ∧
    containsSub documentWriteSink "eval(x)".toList = false ∧
    (analyzeCodeComplexity "eval(x)").security.issues.length = 1 ∧
    (analyzeCodeComplexity "eval(x)").security.score = 80 := by
  have h := (security_distinct_sink_counting "eval(x)").2.2 (by decide) (by decide) (by decide)
  exact ⟨by decide, by decide, by decide, h.1, h.2⟩

/-! The evolution store (source lines 259-273 and 863-911).  The JSON
request body of `POST /evolution/record` and the query strings of the GET
endpoints are modelled by structures with `Option` fields; `none` models
an absent field.  The metrics value attached to a snapshot is modelled by
the fields the hotspot engine reads. -/

/-- The caller-supplied metrics mapping stored inside a snapshot, with the
fields the hotspot computation reads (`securityScore` is optional because
the analyzer metrics record has no such field, which is why the source
guards it with a truthiness fallback to 0). -/
structure MetricsVal where
  maintainabilityIndex : Int
  complexityScore : Int
  securityScore : Option Int
deriving DecidableEq

/-- One persisted evolution snapshot, as pushed by the record handler. -/
structure EvoSnapshot where
  repo : String
  commit : Option String
  timestamp : Int
  metrics : MetricsVal
  file : Option String
deriving DecidableEq

/-- The body of a `POST /evolution/record` request. -/
structure RecordRequest where
  repo : Option String
  commit : Option String
  timestamp : Option Int
  metrics : Option MetricsVal
  file : Option String
deriving DecidableEq

/-- JavaScript falsiness of an optional string field: absent or empty. -/
def falsyStr : Option String → Bool
  | none => true
  | some s => s = ""

/-- The stored timestamp, modelling `timestamp || Date.now()`: an absent
timestamp, and also an explicit 0 (the only falsy number an integer model
can represent), is replaced by the current time. -/
def jsTimestamp (now : Int) : Option Int → Int
  | none => now
  | some t => if t = 0 then now else t

/-- The snapshot object the record handler pushes (source line 870). -/
def requestedSnap (now : Int) (req : RecordRequest) (repo : String) (m : MetricsVal) :
    EvoSnapshot :=
  { repo := repo
    commit := req.commit
    timestamp := jsTimestamp now req.timestamp
    metrics := m
    file := req.file }

/-- The `POST /evolution/record` handler (source lines 864-873): validate
`!repo || !metrics`, then load, append, save.  `none` models the 400
ValidationError response, in which case the store is not touched. -/
def record (now : Int) (store : List EvoSnapshot) (req : RecordRequest) :
    Option (List EvoSnapshot) :=
  match req.repo, req.metrics with
  | some repo, some m =>
    if repo = "" then none
    else some (store ++ [requestedSnap now req repo m])
  | _, _ => none

/-- The `GET /evolution/timeline` handler (source lines 876-881): validate
`!repo`, then filter by repository and, when the `file` query parameter is
truthy, by file. -/
def timeline (store : List EvoSnapshot) (repo file : Option String) :
    Option (List EvoSnapshot) :=
  match repo with
  | none => none
  | some rq =>
    if rq = "" then none
    else some (store.filter (fun s => s.repo = rq && (falsyStr file || s.file = file)))

/-- Claim C7: record fails with a ValidationError exactly when the
repository identifier is falsy (absent or empty) or the metrics value is
absent (the store is untouched in that case, which the model expresses by
returning no new store); otherwise it appends the snapshot, substituting
the current time for an omitted timestamp, and appends even when an equal
snapshot is already stored, so duplicates are preserved as distinct
entries. -/
theorem record_validation_iff (now : Int) (store : List EvoSnapshot) (req : RecordRequest) :
    (record now store req = none ↔ (falsyStr req.repo = true ∨ req.metrics = none)) ∧
    (∀ newStore, record now store req = some newStore →
      ∃ r m, req.repo = some r ∧ req.metrics = some m ∧ r ≠ "" ∧
        newStore = store ++ [requestedSnap now req r m] ∧
        newStore.count (requestedSnap now req r m) =
          store.count (requestedSnap now req r m) + 1 ∧
        (req.timestamp = none → (requestedSnap now req r m).timestamp = now)) := by
  rcases hr : req.repo with _ | r
  · constructor
    · simp [record, hr, falsyStr]
    · intro ns h
      simp [record, hr] at h
  · rcases hm : req.metrics with _ | m
    · constructor
      · simp [record, hr, hm, falsyStr]
      · intro ns h
        simp [record, hr, hm] at h
    · by_cases h0 : r = ""
      · subst h0
        constructor
        · simp [record, hr, hm, falsyStr]
        · intro ns h
          simp [record, hr, hm] at h
      · constructor
        · simp [record, hr, hm, falsyStr, h0]
        · intro ns h
          simp only [record, hr, hm, if_neg h0, Option.some.injEq] at h
          refine ⟨r, m, rfl, rfl, h0, h.symm, ?_, ?_⟩
          · rw [← h, List.count_append]
            simp
          · intro ht
            simp [requestedSnap, jsTimestamp, ht]

/-- Concrete fixtures for the evolution-store witnesses. -/
def mv0 : MetricsVal := ⟨50, 7, none⟩

def reqNoMetrics : RecordRequest := ⟨some "r", none, none, none, none⟩

def reqFull : RecordRequest := ⟨some "r", none, none, some mv0, none⟩

def reqZeroTs : RecordRequest := ⟨some "r", none, some 0, some mv0, none⟩

def reqFileTs : RecordRequest := ⟨some "r", none, some 7, some mv0, some "a.ts"⟩

def snapFile : EvoSnapshot := ⟨"r", none, 7, mv0, some "a.ts"⟩

theorem record_validation_iff_witness :
    record 100 [] reqNoMetrics = none ∧
    (∃ r m, reqFull.repo = some r ∧ reqFull.metrics = some m ∧ r ≠ "" ∧
      ([] : List EvoSnapshot) ++ [requestedSnap 100 reqFull "r" mv0] =
        [] ++ [requestedSnap 100 reqFull r m] ∧
      (([] : List EvoSnapshot) ++ [requestedSnap 100 reqFull "r" mv0]).count
          (requestedSnap 100 reqFull r m) =
        ([] : List EvoSnapshot).count (requestedSnap 100 reqFull r m) + 1 ∧
      (reqFull.timestamp = none → (requestedSnap 100 reqFull r m).timestamp = 100)) := by
  constructor
  · exact (record_validation_iff 100 [] reqNoMetrics).1.mpr (Or.inr rfl)
  · exact (record_validation_iff 100 [] reqFull).2
      ([] ++ [requestedSnap 100 reqFull "r" mv0]) (by decide)

/-- Claim C10: a caller-supplied timestamp of 0 (the falsy number) is
treated as omitted and replaced by the current time, so as long as the
current time is nonzero, no recorded snapshot carries timestamp 0; a
nonzero caller timestamp is stored unchanged. -/
theorem record_falsy_timestamp (now : Int) (store : List EvoSnapshot) (req : RecordRequest)
    (newStore : List EvoSnapshot) (hnow : now ≠ 0)
    (hrec : record now store req = some newStore) :
    ∃ s, newStore = store ++ [s] ∧ s.timestamp ≠ 0 ∧
      ((req.timestamp = none ∨ req.timestamp = some 0) → s.timestamp = now) ∧
      (∀ t, req.timestamp = some t → t ≠ 0 → s.timestamp = t) := by
  rcases hr : req.repo with _ | r
  · simp [record, hr] at hrec
  · rcases hm : req.metrics with _ | m
    · simp [record, hr, hm] at hrec
    · by_cases h0 : r = ""
      · simp [record, hr, hm, h0] at hrec
      · simp only [record, hr, hm, if_neg h0, Option.some.injEq] at hrec
        refine ⟨requestedSnap now req r m, hrec.symm, ?_, ?_, ?_⟩
        · rcases ht : req.timestamp with _ | t
          · simpa [requestedSnap, jsTimestamp, ht] using hnow
          · by_cases t0 : t = 0
            · simpa [requestedSnap, jsTimestamp, ht, t0] using hnow
            · simp [requestedSnap, jsTimestamp, ht, t0]
        · intro hcase
          rcases hcase with ht | ht <;> simp [requestedSnap, jsTimestamp, ht]
        · intro t ht t0
          simp [requestedSnap, jsTimestamp, ht, t0]

theorem record_falsy_timestamp_witness :
    (100 : Int) ≠ 0 ∧
    record 100 [] reqZeroTs = some ([] ++ [requestedSnap 100 reqZeroTs "r" mv0]) ∧
    (∃ s, ([] : List EvoSnapshot) ++ [requestedSnap 100 reqZeroTs "r" mv0] = [] ++ [s] ∧
      s.timestamp ≠ 0 ∧
      ((reqZeroTs.timestamp = none ∨ reqZeroTs.timestamp = some 0) → s.timestamp = 100) ∧
      (∀ t, reqZeroTs.timestamp = some t → t ≠ 0 → s.timestamp = t)) := by
  refine ⟨by decide, by decide, ?_⟩
  exact record_falsy_timestamp 100 [] reqZeroTs
    ([] ++ [requestedSnap 100 reqZeroTs "r" mv0]) (by decide) (by decide)


/-- Claim C6: recording a snapshot and immediately querying the timeline
for the same repository (and the same file when the snapshot carries one)
returns a sequence containing the just-recorded snapshot exactly once,
provided it was not already present in the store. -/
theorem record_then_timeline_contains_once (now : Int) (store : List EvoSnapshot)
    (req : RecordRequest) (s : EvoSnapshot)
    (hrec : record now store req = some (store ++ [s]))
    (hnew : s ∉ store) :
    ∃ tl, timeline (store ++ [s]) (some s.repo) s.file = some tl ∧ tl.count s = 1 := by
  rcases hr : req.repo with _ | r
  · simp [record, hr] at hrec
  · rcases hm : req.metrics with _ | m
    · simp [record, hr, hm] at hrec
    · by_cases h0 : r = ""
      · simp [record, hr, hm, h0] at hrec
      · simp only [record, hr, hm, if_neg h0, Option.some.injEq] at hrec
        have hs : requestedSnap now req r m = s := by
          have h1 : [requestedSnap now req r m] = [s] := by
            exact List.append_cancel_left hrec
          simpa using h1
        have hrepo : s.repo = r := by rw [← hs]; rfl
        have hps : (fun x => x.repo = s.repo && (falsyStr s.file || x.file = s.file)) s
            = true := by
          simp
        refine ⟨(store ++ [s]).filter
          (fun x => x.repo = s.repo && (falsyStr s.file || x.file = s.file)), ?_, ?_⟩
        · rw [timeline]
          rw [if_neg (by rw [hrepo]; exact h0)]
        · rw [List.filter_append]
          rw [List.count_append]
          have hzero : ((store.filter
              (fun x => x.repo = s.repo && (falsyStr s.file || x.file = s.file))).count s)
              = 0 := by
            have hle := (List.filter_sublist store
              (p := fun x => x.repo = s.repo && (falsyStr s.file || x.file = s.file))).count_le s
            have : store.count s = 0 := List.count_eq_zero.mpr hnew
            omega
          rw [hzero]
          simp [hps]

theorem record_then_timeline_contains_once_witness :
    record 100 [] reqFileTs = some ([] ++ [snapFile]) ∧
    snapFile ∉ ([] : List EvoSnapshot) ∧
    (∃ tl, timeline ([] ++ [snapFile]) (some snapFile.repo) snapFile.file = some tl ∧
      tl.count snapFile = 1) := by
  refine ⟨by decide, by decide, ?_⟩
  exact record_then_timeline_contains_once 100 [] reqFileTs snapFile (by decide) (by decide)


/-! Persistence layer.  `saveEvolutionData` (source lines 265-267) is
modelled by the trace of file-system operations it performs, so that the
write discipline the spec mandates can be compared with what the code
does. -/

/-- One file-system effect of the persistence layer. -/
inductive FsOp where
  | write (path content : String)
  | rename (src dst : String)
deriving DecidableEq

/-- The durable path of the evolution store,
`path.join(__dirname, 'evolutionData.json')` with the directory prefix
abstracted away. -/
def EVOLUTION_DB_PATH : String := "evolutionData.json"

/-- The trace of file-system operations performed by `saveEvolutionData`
(source lines 265-267): a single direct `fs.writeFileSync` of the
serialized collection to the final path, with no temporary file and no
rename. -/
def saveEvolutionDataOps (content : String) : List FsOp :=
  [FsOp.write EVOLUTION_DB_PATH content]

/-- Modelled from the spec: the atomic replace-on-write discipline the
spec requires of every durable write.  The new collection is written only
to a temporary location (never directly to the final path) and is then
renamed into place. -/
def usesAtomicReplace (ops : List FsOp) (finalPath : String) : Prop :=
  (∀ c, FsOp.write finalPath c ∉ ops) ∧
  (∃ tmp, tmp ≠ finalPath ∧ FsOp.rename tmp finalPath ∈ ops)

/-- Claim C8 fails on the code: the durable write of `record` is a single
direct write to the final path, so it does not follow the atomic
replace-on-write discipline (write to a temporary location, then rename)
that the claim asserts. -/
theorem saveEvolutionData_not_atomic_replace :
    saveEvolutionDataOps "[]" = [FsOp.write EVOLUTION_DB_PATH "[]"] ∧
    ¬ usesAtomicReplace (saveEvolutionDataOps "[]") EVOLUTION_DB_PATH := by
  refine ⟨rfl, ?_⟩
  rintro ⟨hnoWrite, -⟩
  exact hnoWrite "[]" (by simp [saveEvolutionDataOps])

/-! The hotspot trend engine, `GET /evolution/hotspots`
(source lines 884-911).  The JavaScript object used for grouping keeps
string keys in first-insertion order, which an association list built by
`insertGroup` reproduces; `Array.prototype.sort` with the comparator
`(a, b) => a.timestamp - b.timestamp` is required by the ECMAScript
standard to be stable and consistent with that comparator, and a stable
insertion sort by the corresponding total preorder produces the one
ordering every such sort produces. -/

/-- Ascending-timestamp preorder used to sort a snapshot group. -/
def tsLe (a b : EvoSnapshot) : Prop := a.timestamp ≤ b.timestamp

instance : DecidableRel tsLe := fun a b =>
  inferInstanceAs (Decidable (a.timestamp ≤ b.timestamp))

instance : IsTotal EvoSnapshot tsLe := ⟨fun a b => Int.le_total a.timestamp b.timestamp⟩

instance : IsTrans EvoSnapshot tsLe := ⟨fun _ _ _ h1 h2 => le_trans h1 h2⟩

/-- One hotspot result entry (source lines 902-908). -/
structure HotspotEntry where
  file : String
  maintainabilityTrend : Int
  complexityTrend : Int
  securityTrend : Int
  latest : MetricsVal
deriving DecidableEq

/-- Descending-complexity-trend preorder used to sort the result
(comparator `(a, b) => (b?.complexityTrend || 0) - (a?.complexityTrend || 0)`). -/
def trendGe (a b : HotspotEntry) : Prop := b.complexityTrend ≤ a.complexityTrend

instance : DecidableRel trendGe := fun a b =>
  inferInstanceAs (Decidable (b.complexityTrend ≤ a.complexityTrend))

/-- Append a snapshot to the group of key `f`, creating the group at the
end when the key is new (JavaScript object key insertion order). -/
def insertGroup : List (String × List EvoSnapshot) → String → EvoSnapshot →
    List (String × List EvoSnapshot)
  | [], f, s => [(f, [s])]
  | (g, l) :: rest, f, s =>
    if g = f then (g, l ++ [s]) :: rest else (g, l) :: insertGroup rest f s

/-- One step of the grouping loop (source lines 890-894): snapshots with a
falsy `file` are skipped. -/
def addSnap (acc : List (String × List EvoSnapshot)) (s : EvoSnapshot) :
    List (String × List EvoSnapshot) :=
  match s.file with
  | none => acc
  | some f => if f = "" then acc else insertGroup acc f s

/-- Group the repository snapshots by file. -/
def groupByFile (data : List EvoSnapshot) : List (String × List EvoSnapshot) :=
  data.foldl addSnap []

/-- The per-file body of the hotspot loop (source lines 897-908): sort the
group ascending by timestamp, drop the file when the group is shorter than
the window, otherwise diff the metrics at position length minus window
against the last.  In the source a window of 0 cannot reach this code
(`parseInt(window) || 5` turns 0 into 5), and the claims only concern
positive windows. -/
def fileEntry (n : Nat) (f : String) (snaps : List EvoSnapshot) : Option HotspotEntry :=
  let sorted := List.insertionSort tsLe snaps
  if sorted.length < n then none
  else
    match sorted.get? (sorted.length - n), sorted.get? (sorted.length - 1) with
    | some st, some en =>
      some { file := f
             maintainabilityTrend :=
               en.metrics.maintainabilityIndex - st.metrics.maintainabilityIndex
             complexityTrend := en.metrics.complexityScore - st.metrics.complexityScore
             securityTrend := en.metrics.securityScore.getD 0 - st.metrics.securityScore.getD 0
             latest := en.metrics }
    | _, _ => none

/-- The repository filter of the hotspot (and timeline) loop. -/
def filterRepo (store : List EvoSnapshot) (rq : String) : List EvoSnapshot :=
  store.filter (fun s => s.repo = rq)

/-- The `GET /evolution/hotspots` computation for a validated repository
and window (source lines 884-911). -/
def hotspots (store : List EvoSnapshot) (rq : String) (n : Nat) : List HotspotEntry :=
  let data := filterRepo store rq
  let byFile := groupByFile data
  List.insertionSort trendGe (byFile.filterMap (fun p => fileEntry n p.1 p.2))

/-! Auxiliary facts about the grouping association list. -/

def keysOf (acc : List (String × List EvoSnapshot)) : List String := acc.map Prod.fst

def findGroup (f : String) : List (String × List EvoSnapshot) → Option (List EvoSnapshot)
  | [] => none
  | (g, l) :: rest => if g = f then some l else findGroup f rest

theorem findGroup_insertGroup_self (acc : List (String × List EvoSnapshot))
    (f : String) (s : EvoSnapshot) :
    findGroup f (insertGroup acc f s) = some ((findGroup f acc).getD [] ++ [s]) := by
  induction acc with
  | nil => simp [insertGroup, findGroup]
  | cons p rest ih =>
    obtain ⟨g, l⟩ := p
    by_cases hg : g = f
    · subst hg
      simp [insertGroup, findGroup]
    · simp [insertGroup, findGroup, hg, ih]

theorem findGroup_insertGroup_ne (acc : List (String × List EvoSnapshot))
    {q k : String} (hne : q ≠ k) (s : EvoSnapshot) :
    findGroup q (insertGroup acc k s) = findGroup q acc := by
  induction acc with
  | nil => simp [insertGroup, findGroup, Ne.symm hne]
  | cons p rest ih =>
    obtain ⟨g, l⟩ := p
    by_cases hg : g = k
    · subst hg
      simp [insertGroup, findGroup, Ne.symm hne]
    · by_cases hq : g = q
      · subst hq
        simp [insertGroup, findGroup, hg]
      · simp [insertGroup, findGroup, hg, hq, ih]

theorem findGroup_addSnap (acc : List (String × List EvoSnapshot)) (s : EvoSnapshot)
    {f : String} (hf : f ≠ "") :
    findGroup f (addSnap acc s) =
      if s.file = some f then some ((findGroup f acc).getD [] ++ [s])
      else findGroup f acc := by
  rcases hsf : s.file with _ | g
  · simp [addSnap, hsf]
  · by_cases hg0 : g = ""
    · subst hg0
      simp [addSnap, hsf, Ne.symm hf]
    · by_cases hgf : g = f
      · subst hgf
        simp [addSnap, hsf, hg0, findGroup_insertGroup_self]
      · have hfg : f ≠ g := fun h => hgf h.symm
        simp [addSnap, hsf, hg0, hgf, findGroup_insertGroup_ne acc hfg s]

theorem findGroup_foldl (data : List EvoSnapshot) {f : String} (hf : f ≠ "") :
    ∀ acc, findGroup f (data.foldl addSnap acc) =
      if (data.filter (fun s => s.file = some f)).isEmpty then findGroup f acc
      else some ((findGroup f acc).getD [] ++ data.filter (fun s => s.file = some f)) := by
  induction data with
  | nil => intro acc; simp
  | cons s rest ih =>
    intro acc
    rw [List.foldl_cons, ih (addSnap acc s), findGroup_addSnap acc s hf]
    by_cases hs : s.file = some f
    · rw [if_pos hs]
      have hfil : (s :: rest).filter (fun x => x.file = some f) =
          s :: rest.filter (fun x => x.file = some f) := by
        simp [hs]
      rw [hfil]
      by_cases hrest : (rest.filter (fun x => x.file = some f)).isEmpty
      · have hnil : rest.filter (fun x => x.file = some f) = [] := by
          simpa using hrest
        simp [hrest, hnil]
      · simp [hrest]
    · rw [if_neg hs]
      have hfil : (s :: rest).filter (fun x => x.file = some f) =
          rest.filter (fun x => x.file = some f) := by
        simp [hs]
      rw [hfil]

theorem findGroup_groupByFile {f : String} (hf : f ≠ "") (data : List EvoSnapshot) :
    findGroup f (groupByFile data) =
      if (data.filter (fun s => s.file = some f)).isEmpty then none
      else some (data.filter (fun s => s.file = some f)) := by
  rw [groupByFile, findGroup_foldl data hf []]
  simp [findGroup]

theorem keysOf_insertGroup (acc : List (String × List EvoSnapshot))
    (f : String) (s : EvoSnapshot) :
    keysOf (insertGroup acc f s) =
      if f ∈ keysOf acc then keysOf acc else keysOf acc ++ [f] := by
  induction acc with
  | nil => simp [insertGroup, keysOf]
  | cons p rest ih =>
    obtain ⟨g, l⟩ := p
    by_cases hg : g = f
    · subst hg
      have h1 : insertGroup ((g, l) :: rest) g s = (g, l ++ [s]) :: rest := by
        simp [insertGroup]
      rw [h1, show keysOf ((g, l ++ [s]) :: rest) = g :: keysOf rest from rfl,
        show keysOf ((g, l) :: rest) = g :: keysOf rest from rfl, if_pos (by simp)]
    · have h1 : insertGroup ((g, l) :: rest) f s = (g, l) :: insertGroup rest f s := by
        simp [insertGroup, hg]
      rw [h1, show keysOf ((g, l) :: insertGroup rest f s)
          = g :: keysOf (insertGroup rest f s) from rfl,
        show keysOf ((g, l) :: rest) = g :: keysOf rest from rfl, ih]
      have hfg : f ≠ g := fun h => hg h.symm
      by_cases hm : f ∈ keysOf rest
      · rw [if_pos hm, if_pos (by simp [hm])]
      · rw [if_neg hm, if_neg (by simp [hm, hfg])]
        rfl

theorem keysOf_nodup_insertGroup {acc : List (String × List EvoSnapshot)}
    (h : (keysOf acc).Nodup) (f : String) (s : EvoSnapshot) :
    (keysOf (insertGroup acc f s)).Nodup := by
  rw [keysOf_insertGroup]
  split
  · exact h
  · next hni => simp [List.nodup_append, h, hni]

theorem keysOf_nodup_addSnap {acc : List (String × List EvoSnapshot)}
    (h : (keysOf acc).Nodup) (s : EvoSnapshot) :
    (keysOf (addSnap acc s)).Nodup := by
  rcases hsf : s.file with _ | g
  · simpa [addSnap, hsf] using h
  · by_cases hg0 : g = ""
    · simpa [addSnap, hsf, hg0] using h
    · simpa [addSnap, hsf, hg0] using keysOf_nodup_insertGroup h g s

theorem keysOf_nodup_foldl (data : List EvoSnapshot) :
    ∀ acc, (keysOf acc).Nodup → (keysOf (data.foldl addSnap acc)).Nodup := by
  induction data with
  | nil => intro acc h; simpa using h
  | cons s rest ih =>
    intro acc h
    rw [List.foldl_cons]
    exact ih _ (keysOf_nodup_addSnap h s)

theorem keysOf_nodup_groupByFile (data : List EvoSnapshot) :
    (keysOf (groupByFile data)).Nodup :=
  keysOf_nodup_foldl data [] (by simp [keysOf])

theorem findGroup_eq_some_of_mem {f : String} {l : List EvoSnapshot}
    {groups : List (String × List EvoSnapshot)}
    (hmem : (f, l) ∈ groups) (hnd : (keysOf groups).Nodup) :
    findGroup f groups = some l := by
  induction groups with
  | nil => cases hmem
  | cons p rest ih =>
    obtain ⟨g, m⟩ := p
    rw [show keysOf ((g, m) :: rest) = g :: keysOf rest from rfl] at hnd
    obtain ⟨hnotin, hnd2⟩ := List.nodup_cons.mp hnd
    rcases List.mem_cons.mp hmem with heq | hmem2
    · cases heq
      simp [findGroup]
    · have hf_in : f ∈ keysOf rest := List.mem_map_of_mem Prod.fst hmem2
      have hg : g ≠ f := by
        rintro rfl
        exact hnotin hf_in
      simp [findGroup, hg, ih hmem2 hnd2]

theorem findGroup_none_iff (f : String) (groups : List (String × List EvoSnapshot)) :
    findGroup f groups = none ↔ f ∉ keysOf groups := by
  induction groups with
  | nil => simp [findGroup, keysOf]
  | cons p rest ih =>
    obtain ⟨g, l⟩ := p
    rw [show keysOf ((g, l) :: rest) = g :: keysOf rest from rfl]
    by_cases hg : g = f
    · subst hg
      simp [findGroup]
    · have hfg : ¬f = g := fun h => hg h.symm
      simp [findGroup, hg, ih, hfg]

theorem fileEntry_file {n : Nat} {f : String} {l : List EvoSnapshot} {e : HotspotEntry}
    (h : fileEntry n f l = some e) : e.file = f := by
  simp only [fileEntry] at h
  split at h
  · exact absurd h (by simp)
  · split at h
    · cases h
      rfl
    · exact absurd h (by simp)

theorem fileEntry_none_of_lt {n : Nat} (f : String) {l : List EvoSnapshot}
    (h : (List.insertionSort tsLe l).length < n) : fileEntry n f l = none := by
  simp only [fileEntry]
  rw [if_pos h]

theorem fileEntry_isSome_of_le {n : Nat} (f : String) {l : List EvoSnapshot}
    (hn : 0 < n) (hlen : n ≤ (List.insertionSort tsLe l).length) :
    (fileEntry n f l).isSome = true := by
  have h1 : (List.insertionSort tsLe l).length - n < (List.insertionSort tsLe l).length := by
    omega
  have h2 : (List.insertionSort tsLe l).length - 1 < (List.insertionSort tsLe l).length := by
    omega
  simp only [fileEntry]
  rw [if_neg (by omega), List.get?_eq_get h1, List.get?_eq_get h2]
  rfl

theorem countP_entries_zero {n : Nat} {f : String}
    (groups : List (String × List EvoSnapshot)) (hf : f ∉ keysOf groups) :
    ((groups.filterMap (fun p => fileEntry n p.1 p.2)).countP (fun e => e.file = f)) = 0 := by
  induction groups with
  | nil => rfl
  | cons p rest ih =>
    obtain ⟨g, l⟩ := p
    rw [show keysOf ((g, l) :: rest) = g :: keysOf rest from rfl] at hf
    have hg : g ≠ f := fun h => hf (by simp [h])
    have hf2 : f ∉ keysOf rest := fun h => hf (by simp [h])
    rw [List.filterMap_cons]
    cases hfe : fileEntry n g l with
    | none => exact ih hf2
    | some e =>
      rw [List.countP_cons, ih hf2]
      simp [fileEntry_file hfe, hg]

theorem countP_entries {n : Nat} {f : String} {l : List EvoSnapshot}
    (groups : List (String × List EvoSnapshot))
    (hnd : (keysOf groups).Nodup) (hmem : (f, l) ∈ groups) :
    ((groups.filterMap (fun p => fileEntry n p.1 p.2)).countP (fun e => e.file = f)) =
      if (fileEntry n f l).isSome then 1 else 0 := by
  induction groups with
  | nil => cases hmem
  | cons p rest ih =>
    obtain ⟨g, m⟩ := p
    rw [show keysOf ((g, m) :: rest) = g :: keysOf rest from rfl] at hnd
    obtain ⟨hnotin, hnd2⟩ := List.nodup_cons.mp hnd
    rw [List.filterMap_cons]
    rcases List.mem_cons.mp hmem with heq | hmem2
    · cases heq
      cases hfe : fileEntry n f l with
      | none =>
        rw [countP_entries_zero rest hnotin]
        simp [hfe]
      | some e =>
        rw [List.countP_cons, countP_entries_zero rest hnotin]
        simp [fileEntry_file hfe, hfe]
    · have hf_in : f ∈ keysOf rest := List.mem_map_of_mem Prod.fst hmem2
      have hg : g ≠ f := by
        rintro rfl
        exact hnotin hf_in
      cases hfe : fileEntry n g m with
      | none => exact ih hnd2 hmem2
      | some e =>
        rw [List.countP_cons, ih hnd2 hmem2]
        simp [fileEntry_file hfe, hg]

theorem mem_of_findGroup {f : String} {l : List EvoSnapshot}
    {groups : List (String × List EvoSnapshot)} (h : findGroup f groups = some l) :
    (f, l) ∈ groups := by
  induction groups with
  | nil => simp [findGroup] at h
  | cons p rest ih =>
    obtain ⟨g, m⟩ := p
    by_cases hg : g = f
    · subst hg
      simp [findGroup] at h
      subst h
      exact List.mem_cons_self _ _
    · simp only [findGroup, if_neg hg] at h
      exact List.mem_cons_of_mem _ (ih h)

/-- The group of snapshots of repository `rq` carrying file `f`. -/
def repoFileGroup (store : List EvoSnapshot) (rq f : String) : List EvoSnapshot :=
  (filterRepo store rq).filter (fun s => s.file = some f)

/-- That group sorted ascending by timestamp. -/
def sortedGroup (store : List EvoSnapshot) (rq f : String) : List EvoSnapshot :=
  List.insertionSort tsLe (repoFileGroup store rq f)

/-- Fixture for the concrete hotspot example: one file with complexity
scores 10, 12, 14, 18, 25 at increasing timestamps. -/
def exSnap (t c : Int) : EvoSnapshot := ⟨"r", none, t, ⟨0, c, none⟩, some "a.ts"⟩

def exampleStore : List EvoSnapshot :=
  [exSnap 1 10, exSnap 2 12, exSnap 3 14, exSnap 4 18, exSnap 5 25]

/-- Claim C2: the hotspot computation sorts each file group ascending by
timestamp, excludes a file whose group has fewer than `n` snapshots, and
gives each remaining file exactly one entry whose complexity trend is the
complexity score of the last snapshot minus that of the snapshot at
position length minus `n`; on the concrete five-snapshot example with
window 5 the complexity trend is 15. -/
theorem hotspots_window_trend (store : List EvoSnapshot) (rq f : String) (n : Nat)
    (hn : 0 < n) (hf : f ≠ "") :
    (List.Sorted tsLe (sortedGroup store rq f) ∧
      List.Perm (sortedGroup store rq f) (repoFileGroup store rq f)) ∧
    ((repoFileGroup store rq f).length < n →
      (hotspots store rq n).countP (fun e => e.file = f) = 0) ∧
    (n ≤ (repoFileGroup store rq f).length →
      (hotspots store rq n).countP (fun e => e.file = f) = 1 ∧
      ∀ e ∈ hotspots store rq n, e.file = f →
        ∃ st en,
          (sortedGroup store rq f).get? ((sortedGroup store rq f).length - n) = some st ∧
          (sortedGroup store rq f).get? ((sortedGroup store rq f).length - 1) = some en ∧
          e.complexityTrend = en.metrics.complexityScore - st.metrics.complexityScore ∧
          e.latest = en.metrics) ∧
    ((hotspots exampleStore "r" 5).map (fun e => e.complexityTrend) = [15]) := by
  have hperm := List.perm_insertionSort tsLe (repoFileGroup store rq f)
  have hchar : findGroup f (groupByFile (filterRepo store rq)) =
      if (repoFileGroup store rq f).isEmpty = true then none
      else some (repoFileGroup store rq f) :=
    findGroup_groupByFile hf (filterRepo store rq)
  have hcount : (hotspots store rq n).countP (fun e => e.file = f) =
      ((groupByFile (filterRepo store rq)).filterMap
        (fun p => fileEntry n p.1 p.2)).countP (fun e => e.file = f) := by
    simp only [hotspots]
    exact (List.perm_insertionSort trendGe _).countP_eq _
  refine ⟨⟨List.sorted_insertionSort tsLe _, hperm⟩, ?_, ?_, by decide⟩
  · intro hlt
    rw [hcount]
    by_cases hemp : (repoFileGroup store rq f).isEmpty
    · have hnone : findGroup f (groupByFile (filterRepo store rq)) = none := by
        rw [hchar, if_pos hemp]
      exact countP_entries_zero _ ((findGroup_none_iff _ _).mp hnone)
    · have hsome : findGroup f (groupByFile (filterRepo store rq)) =
          some (repoFileGroup store rq f) := by
        rw [hchar, if_neg hemp]
      have hmem := mem_of_findGroup hsome
      rw [countP_entries _ (keysOf_nodup_groupByFile _) hmem,
        fileEntry_none_of_lt f (by rw [hperm.length_eq]; exact hlt)]
      rfl
  · intro hge
    have hemp : ¬(repoFileGroup store rq f).isEmpty = true := by
      intro h
      have hz : (repoFileGroup store rq f) = [] := by simpa using h
      rw [hz] at hge
      simp at hge
      omega
    have hsome : findGroup f (groupByFile (filterRepo store rq)) =
        some (repoFileGroup store rq f) := by
      rw [hchar, if_neg hemp]
    have hmem := mem_of_findGroup hsome
    have hlen : n ≤ (sortedGroup store rq f).length := by
      rw [sortedGroup, hperm.length_eq]
      exact hge
    constructor
    · rw [hcount, countP_entries _ (keysOf_nodup_groupByFile _) hmem]
      simp [fileEntry_isSome_of_le f hn hlen]
    · intro e he hef
      have he2 : e ∈ (groupByFile (filterRepo store rq)).filterMap
          (fun p => fileEntry n p.1 p.2) := by
        have hpm := List.perm_insertionSort trendGe
          ((groupByFile (filterRepo store rq)).filterMap (fun p => fileEntry n p.1 p.2))
        exact hpm.mem_iff.mp (by simpa [hotspots] using he)
      obtain ⟨⟨g, l⟩, hmemG, hfe⟩ := List.mem_filterMap.mp he2
      have hgf : g = f := (fileEntry_file hfe).symm.trans hef
      rw [hgf] at hfe hmemG
      have hl : l = repoFileGroup store rq f := by
        have h1 := findGroup_eq_some_of_mem hmemG (keysOf_nodup_groupByFile _)
        rw [hsome] at h1
        exact (Option.some.inj h1).symm
      subst hl
      have hlen2 : n ≤ (List.insertionSort tsLe (repoFileGroup store rq f)).length := hlen
      simp only [fileEntry] at hfe
      rw [if_neg (not_lt.mpr hlen2)] at hfe
      split at hfe
      · next st en hst hen =>
        cases hfe
        exact ⟨st, en, hst, hen, rfl, rfl⟩
      · exact absurd hfe (by simp)

theorem hotspots_window_trend_witness :
    0 < 5 ∧ "a.ts" ≠ "" ∧
    (hotspots exampleStore "r" 5).map (fun e => e.complexityTrend) = [15] :=
  ⟨by decide, by decide,
    (hotspots_window_trend exampleStore "r" "a.ts" 5 (by decide) (by decide)).2.2.2⟩

end CodeReview
